import Mathlib

/-!
Verification of the Three Musketeers game engine (threeMusketeers.c).

The board is a 5x5 grid of characters (the C type `char board[5][5]`);
cells hold the raw characters used by the program: 'M' (Musketeer),
'o' (enemy), '.' (empty).

The C code indexes the board with `int` coordinates and sometimes reads
`board[row-1][col]` and similar expressions without first checking bounds.
To embed this faithfully, every board access goes through `readC`, which
is parameterised by a memory oracle `mem : Int → Int → Char` supplying
the contents of addresses outside the 5x5 array (the stack memory the C
program would read on an out-of-range access).  In-bounds accesses read
the board; out-of-range accesses read the oracle.  A result that is the
same for every oracle is the well-defined behaviour of the program; a
result that depends on the oracle exhibits a read past the array.
-/

namespace TM

/-- The 5x5 board, one character per cell (`char board[N][N]` with N = 5). -/
def Board : Type := Fin 5 → Fin 5 → Char

/-- Memory surrounding the board array: the value an out-of-range
`board[i][k]` access would read in the C program. -/
def Mem : Type := Int → Int → Char

/-- `board[i][j]` with `int` indices: the board cell when `(i, j)` is
inside the 5x5 array, otherwise the surrounding memory. -/
def readC (b : Board) (mem : Mem) (i j : Int) : Char :=
  if h : 0 ≤ i ∧ i < 5 ∧ 0 ≤ j ∧ j < 5 then
    b ⟨i.toNat, by omega⟩ ⟨j.toNat, by omega⟩
  else mem i j

/-- `board[i][j] = v` with `int` indices: updates the cell when `(i, j)`
is inside the array; an out-of-range write does not touch any board cell
(it would corrupt memory outside the board, which we do not track). -/
def writeC (b : Board) (i j : Int) (v : Char) : Board :=
  fun r c => if ((r : Nat) : Int) = i ∧ ((c : Nat) : Int) = j then v else b r c

/-- `isValidMove` (threeMusketeers.c:307-324): source position inside the
board and direction one of L/l/R/r/U/u/D/d.  The board parameter is unused,
exactly as in the C function. -/
def isValidMove (row col : Int) (direction : Char) (b : Board) : Bool :=
  let cnt : Nat :=
    if 0 ≤ row ∧ row < 5 ∧ 0 ≤ col ∧ col < 5 then
      if direction == 'L' || direction == 'l' || direction == 'R' || direction == 'r' ||
         direction == 'U' || direction == 'u' || direction == 'D' || direction == 'd'
      then 1 else 0
    else 0
  decide (0 < cnt)

/-- `isValidMusketeerMove` (threeMusketeers.c:326-345).  Each of the four
`if` statements of the C code mirrors the C conjunct order; the board
reads `board[row-1][col]` etc. go through `readC`, so a read past the
array consults the memory oracle exactly where the C code reads junk.
Note the C code places the bounds test (`row > 0`, `row < N-1`, ...) at
the END of each conjunction, after the out-of-range read. -/
def isValidMusketeerMove (b : Board) (mem : Mem) (row col : Int) (direction : Char) : Bool :=
  let cnt : Nat :=
    if isValidMove row col direction b then
      (if readC b mem row col == 'M' && readC b mem (row - 1) col == 'o' &&
          (direction == 'U' || direction == 'u') && decide (0 < row) then 1 else 0) +
      (if readC b mem row col == 'M' && readC b mem (row + 1) col == 'o' &&
          (direction == 'D' || direction == 'd') && decide (row < 4) then 1 else 0) +
      (if readC b mem row col == 'M' && readC b mem row (col - 1) == 'o' &&
          (direction == 'L' || direction == 'l') && decide (0 < col) then 1 else 0) +
      (if readC b mem row col == 'M' && readC b mem row (col + 1) == 'o' &&
          (direction == 'R' || direction == 'r') && decide (col < 4) then 1 else 0)
    else 0
  decide (0 < cnt)

/-- `isValidEnemyMove` (threeMusketeers.c:347-366).  Unlike the Musketeer
variant, the C code has NO bounds conjunct on the destination at all:
`board[row-1][col]` is compared against '.' with no `row > 0` guard. -/
def isValidEnemyMove (b : Board) (mem : Mem) (row col : Int) (direction : Char) : Bool :=
  let cnt : Nat :=
    if isValidMove row col direction b then
      (if readC b mem row col == 'o' && readC b mem (row - 1) col == '.' &&
          (direction == 'U' || direction == 'u') then 1 else 0) +
      (if readC b mem row col == 'o' && readC b mem (row + 1) col == '.' &&
          (direction == 'D' || direction == 'd') then 1 else 0) +
      (if readC b mem row col == 'o' && readC b mem row (col - 1) == '.' &&
          (direction == 'L' || direction == 'l') then 1 else 0) +
      (if readC b mem row col == 'o' && readC b mem row (col + 1) == '.' &&
          (direction == 'R' || direction == 'r') then 1 else 0)
    else 0
  decide (0 < cnt)

/-- The destination `(newRow, newCol)` computed by `makeMove`
(threeMusketeers.c:369-387).  When the direction is none of the eight
recognised characters the C variables stay uninitialised; `uR`/`uC`
stand for those indeterminate initial values (that branch is unreachable
after validation). -/
def destOf (row col : Int) (direction : Char) (uR uC : Int) : Int × Int :=
  if direction == 'l' || direction == 'L' then (row, col - 1)
  else if direction == 'r' || direction == 'R' then (row, col + 1)
  else if direction == 'u' || direction == 'U' then (row - 1, col)
  else if direction == 'd' || direction == 'D' then (row + 1, col)
  else (uR, uC)

/-- `makeMove` (threeMusketeers.c:369-394): clear the source cell, then
write 'M' (Musketeers' turn) or 'o' (enemies' turn) to the destination. -/
def makeMove (b : Board) (row col : Int) (direction : Char) (mTurn : Bool)
    (uR uC : Int) : Board :=
  let nd := destOf row col direction uR uC
  let b1 := writeC b row col '.'
  writeC b1 nd.1 nd.2 (if mTurn then 'M' else 'o')

/-- Number of cells holding character `t` (25-cell scan). -/
def countC (t : Char) (b : Board) : Nat :=
  ∑ i : Fin 5, ∑ k : Fin 5, if b i k = t then 1 else 0

/-- Board lookup with `Nat` indices; out-of-range addresses give a
placeholder (never consulted: every use is behind the same bounds guard
the C code performs). -/
def cellOr (b : Board) (i k : Nat) : Char :=
  if h : i < 5 ∧ k < 5 then b ⟨i, h.1⟩ ⟨k, h.2⟩ else ' '

/-- Loop body of `winMusketeers` (threeMusketeers.c:415-424): the number
of orthogonally adjacent 'o' cells of cell `(i, k)`, with the same
in-bounds guards (`k-1 >= 0`, `k+1 < N`, `i-1 >= 0`, `i+1 < N`) the C
code performs before each neighbour read. -/
def mAdjAt (b : Board) (i k : Fin 5) : Nat :=
  (if 1 ≤ (k : Nat) then (if cellOr b (i : Nat) ((k : Nat) - 1) = 'o' then 1 else 0) else 0) +
  (if (k : Nat) + 1 < 5 then (if cellOr b (i : Nat) ((k : Nat) + 1) = 'o' then 1 else 0) else 0) +
  (if 1 ≤ (i : Nat) then (if cellOr b ((i : Nat) - 1) (k : Nat) = 'o' then 1 else 0) else 0) +
  (if (i : Nat) + 1 < 5 then (if cellOr b ((i : Nat) + 1) (k : Nat) = 'o' then 1 else 0) else 0)

/-- `winMusketeers` (threeMusketeers.c:409-431): count, over all cells
holding 'M', their orthogonally adjacent 'o' cells; the Musketeers have
won iff that count is zero. -/
def winMusketeers (b : Board) : Bool :=
  let cnt := ∑ i : Fin 5, ∑ k : Fin 5, if b i k = 'M' then mAdjAt b i k else 0
  if 0 < cnt then false else true

/-- The explicit list of the five row (or column) indices, the unrolled
`for (i = 0; i < N; i++)` loop header. -/
def fins : List (Fin 5) := [0, 1, 2, 3, 4]

/-- Number of 'M' cells in row `i` (inner loop of `winEnemies`). -/
def rowMCount (b : Board) (i : Fin 5) : Nat :=
  ∑ k : Fin 5, if b i k = 'M' then 1 else 0

/-- Number of 'M' cells in column `k` (inner loop of `winEnemies`). -/
def colMCount (b : Board) (k : Fin 5) : Nat :=
  ∑ i : Fin 5, if b i k = 'M' then 1 else 0

/-- `winEnemies` (threeMusketeers.c:434-461): some row has exactly three
'M' cells, or some column does. -/
def winEnemies (b : Board) : Bool :=
  (fins.any fun i => rowMCount b i == 3) || (fins.any fun k => colMCount b k == 3)

/-- `winGame` (threeMusketeers.c:464-468). -/
def winGame (b : Board) : Bool :=
  winMusketeers b || winEnemies b

/-! ## Move-input parsing (lines 263-273 of play) -/

/-- The whitespace characters a scanf whitespace directive skips. -/
def isWs (c : Char) : Bool := c == ' ' || c == '\t' || c == '\n'

/-- Skip leading whitespace, as a whitespace directive in a scanf format does. -/
def skipWs : List Char → List Char
  | [] => []
  | c :: rest => if isWs c then skipWs rest else c :: rest

/-- First parse attempt, `sscanf(playerMove, " %c,%c=%c", ...)` == 3:
optional leading whitespace, any char, a literal comma, any char, a
literal equals sign, any char. -/
def sscanf1 (s : List Char) : Option (Char × Char × Char) :=
  match skipWs s with
  | c0 :: ',' :: c1 :: '=' :: c2 :: _ => some (c0, c1, c2)
  | _ => none

/-- Second parse attempt, `sscanf(playerMove, " %c,%c = %c", ...)` == 3:
the two format spaces around the equals sign match any (possibly empty)
run of whitespace. -/
def sscanf2 (s : List Char) : Option (Char × Char × Char) :=
  match skipWs s with
  | c0 :: ',' :: c1 :: rest =>
    match skipWs rest with
    | '=' :: rest2 =>
      match skipWs rest2 with
      | c2 :: _ => some (c0, c1, c2)
      | [] => none
    | _ => none
  | _ => none

/-- C `tolower` on the ASCII letters. -/
def tolowerC (c : Char) : Char :=
  if 'A' ≤ c ∧ c ≤ 'Z' then Char.ofNat (c.toNat + 32) else c

/-- The parsing step of the turn loop (threeMusketeers.c:271-273): the
move text is accepted when either sscanf matches three items; the row
index is then `tolower(playerMove[0]) - 'a'` and the column index
`playerMove[2] - '1'` (both can fall outside [0,5)); the direction is
the third scanned character. -/
def parseMove (s : List Char) : Option (Int × Int × Char) :=
  let scanned := match sscanf1 s with
    | some t => some t
    | none => sscanf2 s
  match scanned with
  | some (_, _, d) =>
    match s with
    | a :: _ :: c :: _ =>
      some (((tolowerC a).toNat : Int) - ('a'.toNat : Int),
            ((c.toNat : Int) - ('1'.toNat : Int)), d)
    | _ => none
  | none => none

/-- One iteration of the turn loop of `play` (threeMusketeers.c:252-293),
after the prompt: the interrupt commands end the session (`none`);
otherwise the text is parsed, the active side's validator consulted, and
either the move is applied and the turn flipped, or board and turn are
left as they were.  `some (board, turn)` is the state offered to the
next prompt. -/
def playStep (b : Board) (mem : Mem) (uR uC : Int) (mTurn : Bool)
    (input : List Char) : Option (Board × Bool) :=
  if input = ("0,0=E\n".toList) ∨ input = ("0,0=e\n".toList) then none
  else
    match parseMove input with
    | some (r, c, d) =>
      if mTurn then
        if isValidMusketeerMove b mem r c d then
          some (makeMove b r c d mTurn uR uC, !mTurn)
        else some (b, mTurn)
      else
        if isValidEnemyMove b mem r c d then
          some (makeMove b r c d mTurn uR uC, !mTurn)
        else some (b, mTurn)
    | none => some (b, mTurn)

/-! ## Board file I/O (readBoard, lines 165-192; writeBoard, lines 195-220) -/

/-- The characters `readBoard` tolerates in the input file. -/
def validCh (c : Char) : Bool :=
  c == 'o' || c == 'M' || c == '\n' || c == ' ' || c == '.'

/-- The separator characters `readBoard` skips (`k--` branch). -/
def isSkip (c : Char) : Bool := c == '\n' || c == ' '

/-- The reading loop of `readBoard`: collect `n` cell characters from
the stream, skipping spaces and newlines, failing on EOF or on a
character outside the allowed set. -/
def readCells : List Char → Nat → Option (List Char)
  | _, 0 => some []
  | [], _ + 1 => none
  | c :: rest, n + 1 =>
    if validCh c = false then none
    else if isSkip c then readCells rest (n + 1)
    else (readCells rest n).map (fun l => c :: l)

/-- Lay 25 collected cell characters out as a board, row-major. -/
def boardOfCells (l : List Char) : Board :=
  fun i k => l.getD ((i : Nat) * 5 + (k : Nat)) '.'

/-- `readBoard` (threeMusketeers.c:165-192) on the file's character
stream: 25 cells, row-major. -/
def readBoard (input : List Char) : Option Board :=
  (readCells input 25).map boardOfCells

/-- One row of `writeBoard` output: the five cells separated by single
spaces (`if (k < N - 1) fputc(' ')`), terminated by a newline. -/
def serializeRow (b : Board) (i : Fin 5) : List Char :=
  [b i 0, ' ', b i 1, ' ', b i 2, ' ', b i 3, ' ', b i 4, '\n']

/-- `writeBoard` (threeMusketeers.c:195-220): the character stream
written to the save file. -/
def writeBoard (b : Board) : List Char :=
  serializeRow b 0 ++ serializeRow b 1 ++ serializeRow b 2 ++
  serializeRow b 3 ++ serializeRow b 4

/-- The 25 cells of a board in row-major order. -/
def cellsOf (b : Board) : List Char :=
  [b 0 0, b 0 1, b 0 2, b 0 3, b 0 4,
   b 1 0, b 1 1, b 1 2, b 1 3, b 1 4,
   b 2 0, b 2 1, b 2 2, b 2 3, b 2 4,
   b 3 0, b 3 1, b 3 2, b 3 3, b 3 4,
   b 4 0, b 4 1, b 4 2, b 4 3, b 4 4]

/-! ## Concrete boards and memory oracles used as test inputs -/

/-- Surrounding memory that happens to hold '.' everywhere. -/
def memDot : Mem := fun _ _ => '.'

/-- Surrounding memory that holds an unrelated byte everywhere. -/
def memX : Mem := fun _ _ => 'X'

/-- A Musketeer at (0,0) with an enemy at (0,1), empty elsewhere. -/
def bT : Board := fun i k =>
  if (i : Nat) = 0 ∧ (k : Nat) = 0 then 'M'
  else if (i : Nat) = 0 ∧ (k : Nat) = 1 then 'o'
  else '.'

/-- A single enemy at (0,0), empty elsewhere. -/
def bE : Board := fun i k =>
  if (i : Nat) = 0 ∧ (k : Nat) = 0 then 'o' else '.'

/-- The empty board. -/
def bD : Board := fun _ _ => '.'

/-- Three Musketeers on row 0, empty elsewhere. -/
def b10a : Board := fun i k =>
  if (i : Nat) = 0 ∧ (k : Nat) < 3 then 'M' else '.'

/-- Three Musketeers on row 0, enemies everywhere else. -/
def b10b : Board := fun i k =>
  if (i : Nat) = 0 ∧ (k : Nat) < 3 then 'M' else 'o'

/-- Three Musketeers at (0,0), (2,2), (4,4) and one enemy at (0,1). -/
def b5 : Board := fun i k =>
  if (i : Nat) = 0 ∧ (k : Nat) = 0 then 'M'
  else if (i : Nat) = 2 ∧ (k : Nat) = 2 then 'M'
  else if (i : Nat) = 4 ∧ (k : Nat) = 4 then 'M'
  else if (i : Nat) = 0 ∧ (k : Nat) = 1 then 'o'
  else '.'

/-- Cells `(i, k)` and `(i2, k2)` are orthogonally adjacent: equal on
one coordinate and exactly one step apart on the other. -/
def OrthAdj (i k i2 k2 : Fin 5) : Prop :=
  (i = i2 ∧ ((k : Nat) + 1 = (k2 : Nat) ∨ (k2 : Nat) + 1 = (k : Nat))) ∨
  (k = k2 ∧ ((i : Nat) + 1 = (i2 : Nat) ∨ (i2 : Nat) + 1 = (i : Nat)))

instance (i k i2 k2 : Fin 5) : Decidable (OrthAdj i k i2 k2) := by
  unfold OrthAdj; infer_instance


/-- The text of an all-empty board file, 25 dots in the save format. -/
def dotsIn : List Char :=
  (". . . . .\n. . . . .\n. . . . .\n. . . . .\n. . . . .\n".toList)

/-- The all-empty board as the loader lays it out. -/
def dB : Board := boardOfCells (List.replicate 25 '.')

/-- Shorthand for "the direction character is one of the eight accepted
by the program". -/
def DirOk (d : Char) : Prop :=
  d = 'L' ∨ d = 'l' ∨ d = 'R' ∨ d = 'r' ∨ d = 'U' ∨ d = 'u' ∨ d = 'D' ∨ d = 'd'

instance (d : Char) : Decidable (DirOk d) := by unfold DirOk; infer_instance

/-- Shorthand for "the integer pair indexes a cell of the 5x5 board". -/
def InGrid (i j : Int) : Prop := 0 ≤ i ∧ i < 5 ∧ 0 ≤ j ∧ j < 5

instance (i j : Int) : Decidable (InGrid i j) := by unfold InGrid; infer_instance

/-! ## Helper lemmas -/

lemma isValidMove_true (r c : Int) (d : Char) (b : Board)
    (hb : InGrid r c) (hd : DirOk d) :
    isValidMove r c d b = true := by
  unfold isValidMove
  rw [if_pos (show 0 ≤ r ∧ r < 5 ∧ 0 ≤ c ∧ c < 5 from hb)]
  rcases hd with h|h|h|h|h|h|h|h <;> subst h <;> rfl

lemma destOf_indep (r c uR uC uR' uC' : Int) (d : Char) (hd : DirOk d) :
    destOf r c d uR uC = destOf r c d uR' uC' := by
  rcases hd with h|h|h|h|h|h|h|h <;> subst h <;> rfl

lemma readC_inb (b : Board) (mem : Mem) (i j : Int) (h : InGrid i j) :
    readC b mem i j = b ⟨i.toNat, by obtain ⟨_,_,_,_⟩ := h; omega⟩
      ⟨j.toNat, by obtain ⟨_,_,_,_⟩ := h; omega⟩ := by
  unfold readC
  rw [dif_pos (show 0 ≤ i ∧ i < 5 ∧ 0 ≤ j ∧ j < 5 from h)]

/-- Characterisation of `isValidMusketeerMove` for an in-grid source and
in-grid destination: accepted iff the source reads 'M' and the
destination reads 'o'. -/
lemma musketeer_accept_iff (b : Board) (mem : Mem) (r c : Int) (d : Char)
    (hd : DirOk d) (hb : InGrid r c)
    (hdst : InGrid (destOf r c d 0 0).1 (destOf r c d 0 0).2) :
    isValidMusketeerMove b mem r c d = true ↔
      (readC b mem r c = 'M' ∧
       readC b mem (destOf r c d 0 0).1 (destOf r c d 0 0).2 = 'o') := by
  have hv := isValidMove_true r c d b hb hd
  rcases hd with h|h|h|h|h|h|h|h <;> subst h <;>
    simp [destOf, InGrid] at hdst ⊢ <;>
    unfold isValidMusketeerMove <;>
    rw [if_pos hv]
  · have h0 : 0 < c := by omega
    simp [h0]
    by_cases h : readC b mem r c = 'M' ∧ readC b mem r (c - 1) = 'o' <;> simp [h]
  · have h0 : 0 < c := by omega
    simp [h0]
    by_cases h : readC b mem r c = 'M' ∧ readC b mem r (c - 1) = 'o' <;> simp [h]
  · have h0 : c < 4 := by omega
    simp [h0]
    by_cases h : readC b mem r c = 'M' ∧ readC b mem r (c + 1) = 'o' <;> simp [h]
  · have h0 : c < 4 := by omega
    simp [h0]
    by_cases h : readC b mem r c = 'M' ∧ readC b mem r (c + 1) = 'o' <;> simp [h]
  · have h0 : 0 < r := by omega
    simp [h0]
    by_cases h : readC b mem r c = 'M' ∧ readC b mem (r - 1) c = 'o' <;> simp [h]
  · have h0 : 0 < r := by omega
    simp [h0]
    by_cases h : readC b mem r c = 'M' ∧ readC b mem (r - 1) c = 'o' <;> simp [h]
  · have h0 : r < 4 := by omega
    simp [h0]
    by_cases h : readC b mem r c = 'M' ∧ readC b mem (r + 1) c = 'o' <;> simp [h]
  · have h0 : r < 4 := by omega
    simp [h0]
    by_cases h : readC b mem r c = 'M' ∧ readC b mem (r + 1) c = 'o' <;> simp [h]

/-- Characterisation of `isValidEnemyMove` for an in-grid source:
accepted iff the source reads 'o' and the destination address reads '.'.
No bound on the destination is required, because the C code performs
none: when the destination is off the board, the read consults the
surrounding memory. -/
lemma enemy_accept_iff (b : Board) (mem : Mem) (r c : Int) (d : Char)
    (hd : DirOk d) (hb : InGrid r c) :
    isValidEnemyMove b mem r c d = true ↔
      (readC b mem r c = 'o' ∧
       readC b mem (destOf r c d 0 0).1 (destOf r c d 0 0).2 = '.') := by
  have hv := isValidMove_true r c d b hb hd
  rcases hd with h|h|h|h|h|h|h|h <;> subst h <;>
    simp [destOf] <;>
    unfold isValidEnemyMove <;>
    rw [if_pos hv]
  · by_cases h : readC b mem r c = 'o' ∧ readC b mem r (c - 1) = '.' <;> simp [h]
  · by_cases h : readC b mem r c = 'o' ∧ readC b mem r (c - 1) = '.' <;> simp [h]
  · by_cases h : readC b mem r c = 'o' ∧ readC b mem r (c + 1) = '.' <;> simp [h]
  · by_cases h : readC b mem r c = 'o' ∧ readC b mem r (c + 1) = '.' <;> simp [h]
  · by_cases h : readC b mem r c = 'o' ∧ readC b mem (r - 1) c = '.' <;> simp [h]
  · by_cases h : readC b mem r c = 'o' ∧ readC b mem (r - 1) c = '.' <;> simp [h]
  · by_cases h : readC b mem r c = 'o' ∧ readC b mem (r + 1) c = '.' <;> simp [h]
  · by_cases h : readC b mem r c = 'o' ∧ readC b mem (r + 1) c = '.' <;> simp [h]

lemma cellOr_eq (b : Board) (x y : Nat) (p q : Fin 5)
    (hx : (p : Nat) = x) (hy : (q : Nat) = y) :
    cellOr b x y = b p q := by
  subst hx
  subst hy
  unfold cellOr
  rw [dif_pos ⟨p.isLt, q.isLt⟩]

lemma mAdjAt_eq_zero_iff (b : Board) (i k : Fin 5) :
    mAdjAt b i k = 0 ↔
      (∀ i2 k2 : Fin 5, OrthAdj i k i2 k2 → b i2 k2 ≠ 'o') := by
  unfold mAdjAt
  constructor
  · intro h i2 k2 hadj ho
    rcases hadj with ⟨hi, hk | hk⟩ | ⟨hk, hi | hi⟩
    · have hb : (k : Nat) + 1 < 5 := by have := k2.isLt; omega
      rw [if_pos hb,
          cellOr_eq b (i : Nat) ((k : Nat) + 1) i2 k2 (congrArg Fin.val hi).symm hk.symm,
          if_pos ho] at h
      omega
    · have hb : 1 ≤ (k : Nat) := by omega
      rw [if_pos hb,
          cellOr_eq b (i : Nat) ((k : Nat) - 1) i2 k2 (congrArg Fin.val hi).symm (by omega),
          if_pos ho] at h
      omega
    · have hb : (i : Nat) + 1 < 5 := by have := i2.isLt; omega
      rw [if_pos hb,
          cellOr_eq b ((i : Nat) + 1) (k : Nat) i2 k2 hi.symm (congrArg Fin.val hk).symm,
          if_pos ho] at h
      omega
    · have hb : 1 ≤ (i : Nat) := by omega
      rw [if_pos hb,
          cellOr_eq b ((i : Nat) - 1) (k : Nat) i2 k2 (by omega) (congrArg Fin.val hk).symm,
          if_pos ho] at h
      omega
  · intro h
    have t1 : (if 1 ≤ (k : Nat) then
        (if cellOr b (i : Nat) ((k : Nat) - 1) = 'o' then 1 else 0) else 0) = 0 := by
      by_cases hg : 1 ≤ (k : Nat)
      · rw [if_pos hg,
            cellOr_eq b (i : Nat) ((k : Nat) - 1) i ⟨(k : Nat) - 1, by omega⟩ rfl rfl,
            if_neg (h i ⟨(k : Nat) - 1, by omega⟩
              (Or.inl ⟨rfl, Or.inr (show (k : Nat) - 1 + 1 = (k : Nat) by omega)⟩))]
      · rw [if_neg hg]
    have t2 : (if (k : Nat) + 1 < 5 then
        (if cellOr b (i : Nat) ((k : Nat) + 1) = 'o' then 1 else 0) else 0) = 0 := by
      by_cases hg : (k : Nat) + 1 < 5
      · rw [if_pos hg,
            cellOr_eq b (i : Nat) ((k : Nat) + 1) i ⟨(k : Nat) + 1, hg⟩ rfl rfl,
            if_neg (h i ⟨(k : Nat) + 1, hg⟩ (Or.inl ⟨rfl, Or.inl rfl⟩))]
      · rw [if_neg hg]
    have t3 : (if 1 ≤ (i : Nat) then
        (if cellOr b ((i : Nat) - 1) (k : Nat) = 'o' then 1 else 0) else 0) = 0 := by
      by_cases hg : 1 ≤ (i : Nat)
      · rw [if_pos hg,
            cellOr_eq b ((i : Nat) - 1) (k : Nat) ⟨(i : Nat) - 1, by omega⟩ k rfl rfl,
            if_neg (h ⟨(i : Nat) - 1, by omega⟩ k
              (Or.inr ⟨rfl, Or.inr (show (i : Nat) - 1 + 1 = (i : Nat) by omega)⟩))]
      · rw [if_neg hg]
    have t4 : (if (i : Nat) + 1 < 5 then
        (if cellOr b ((i : Nat) + 1) (k : Nat) = 'o' then 1 else 0) else 0) = 0 := by
      by_cases hg : (i : Nat) + 1 < 5
      · rw [if_pos hg,
            cellOr_eq b ((i : Nat) + 1) (k : Nat) ⟨(i : Nat) + 1, hg⟩ k rfl rfl,
            if_neg (h ⟨(i : Nat) + 1, hg⟩ k (Or.inr ⟨rfl, Or.inl rfl⟩))]
      · rw [if_neg hg]
    omega

lemma countC_rows (b : Board) : countC 'M' b = ∑ i : Fin 5, rowMCount b i := rfl

lemma countC_cols (b : Board) : countC 'M' b = ∑ k : Fin 5, colMCount b k := by
  unfold countC colMCount
  exact Finset.sum_comm

lemma sum_three_unique (f : Fin 5 → Nat) (hsum : ∑ i : Fin 5, f i = 3) (r : Fin 5)
    (hr : f r = 3) : ∀ i, i ≠ r → f i = 0 := by
  intro i hi
  have h1 : f r + ∑ x ∈ Finset.univ.erase r, f x = ∑ x : Fin 5, f x :=
    Finset.add_sum_erase _ f (Finset.mem_univ r)
  have h2 : ∑ x ∈ Finset.univ.erase r, f x = 0 := by omega
  rw [Finset.sum_eq_zero_iff] at h2
  exact h2 i (Finset.mem_erase.mpr ⟨hi, Finset.mem_univ i⟩)

lemma row_three_iff (b : Board) (hM : countC 'M' b = 3) (r : Fin 5) :
    rowMCount b r = 3 ↔ (∀ i k : Fin 5, b i k = 'M' → i = r) := by
  rw [countC_rows] at hM
  constructor
  · intro hr i k hm
    by_contra hne
    have h0 := sum_three_unique (rowMCount b) hM r hr i hne
    unfold rowMCount at h0
    rw [Finset.sum_eq_zero_iff] at h0
    have h1 := h0 k (Finset.mem_univ k)
    rw [if_pos hm] at h1
    omega
  · intro h
    have hz : ∀ i, i ≠ r → rowMCount b i = 0 := by
      intro i hi
      unfold rowMCount
      rw [Finset.sum_eq_zero_iff]
      intro k _
      rw [if_neg (fun hm => hi (h i k hm))]
    have h1 : rowMCount b r + ∑ x ∈ Finset.univ.erase r, rowMCount b x
        = ∑ i : Fin 5, rowMCount b i :=
      Finset.add_sum_erase _ _ (Finset.mem_univ r)
    have h2 : ∑ x ∈ Finset.univ.erase r, rowMCount b x = 0 := by
      rw [Finset.sum_eq_zero_iff]
      intro x hx
      exact hz x (Finset.mem_erase.mp hx).1
    omega

lemma col_three_iff (b : Board) (hM : countC 'M' b = 3) (cc : Fin 5) :
    colMCount b cc = 3 ↔ (∀ i k : Fin 5, b i k = 'M' → k = cc) := by
  rw [countC_cols] at hM
  constructor
  · intro hr i k hm
    by_contra hne
    have h0 := sum_three_unique (colMCount b) hM cc hr k hne
    unfold colMCount at h0
    rw [Finset.sum_eq_zero_iff] at h0
    have h1 := h0 i (Finset.mem_univ i)
    rw [if_pos hm] at h1
    omega
  · intro h
    have hz : ∀ k, k ≠ cc → colMCount b k = 0 := by
      intro k hk
      unfold colMCount
      rw [Finset.sum_eq_zero_iff]
      intro i _
      rw [if_neg (fun hm => hk (h i k hm))]
    have h1 : colMCount b cc + ∑ x ∈ Finset.univ.erase cc, colMCount b x
        = ∑ k : Fin 5, colMCount b k :=
      Finset.add_sum_erase _ _ (Finset.mem_univ cc)
    have h2 : ∑ x ∈ Finset.univ.erase cc, colMCount b x = 0 := by
      rw [Finset.sum_eq_zero_iff]
      intro x hx
      exact hz x (Finset.mem_erase.mp hx).1
    omega

lemma sum_swap_point {f g : Fin 5 → Nat} (p : Fin 5) (h : ∀ x, x ≠ p → f x = g x) :
    f p + ∑ x : Fin 5, g x = g p + ∑ x : Fin 5, f x := by
  rw [← Finset.add_sum_erase Finset.univ g (Finset.mem_univ p),
      ← Finset.add_sum_erase Finset.univ f (Finset.mem_univ p)]
  have he : ∑ x ∈ Finset.univ.erase p, f x = ∑ x ∈ Finset.univ.erase p, g x :=
    Finset.sum_congr rfl (fun x hx => h x (Finset.ne_of_mem_erase hx))
  omega

/-- Effect of a single in-grid cell write on a character count. -/
lemma countC_writeC (t v : Char) (b : Board) (i j : Int) (pi pj : Fin 5)
    (hpi : ((pi : Nat) : Int) = i) (hpj : ((pj : Nat) : Int) = j) :
    countC t (writeC b i j v) + (if b pi pj = t then 1 else 0)
      = countC t b + (if v = t then 1 else 0) := by
  have hwp : writeC b i j v pi pj = v := by
    unfold writeC
    rw [if_pos ⟨hpi, hpj⟩]
  have hwne : ∀ (x y : Fin 5), ¬(x = pi ∧ y = pj) → writeC b i j v x y = b x y := by
    intro x y hxy
    unfold writeC
    rw [if_neg]
    intro hc
    apply hxy
    constructor
    · apply Fin.ext
      omega
    · apply Fin.ext
      omega
  have hrow : ∀ x : Fin 5, x ≠ pi →
      (∑ k : Fin 5, if writeC b i j v x k = t then 1 else 0)
        = ∑ k : Fin 5, if b x k = t then 1 else 0 := by
    intro x hx
    exact Finset.sum_congr rfl (fun k _ => by rw [hwne x k (fun hc => hx hc.1)])
  have hin := sum_swap_point (f := fun k => if writeC b i j v pi k = t then 1 else 0)
    (g := fun k => if b pi k = t then 1 else 0) pj
    (fun y hy => by
      show (if writeC b i j v pi y = t then 1 else 0) = (if b pi y = t then 1 else 0)
      rw [hwne pi y (fun hc => hy hc.2)])
  simp only [] at hin
  rw [hwp] at hin
  have hout := sum_swap_point
    (f := fun x => ∑ k : Fin 5, if writeC b i j v x k = t then 1 else 0)
    (g := fun x => ∑ k : Fin 5, if b x k = t then 1 else 0) pi hrow
  simp only [] at hout
  show (∑ x : Fin 5, ∑ k : Fin 5, if writeC b i j v x k = t then 1 else 0)
      + (if b pi pj = t then 1 else 0)
    = (∑ x : Fin 5, ∑ k : Fin 5, if b x k = t then 1 else 0) + (if v = t then 1 else 0)
  omega


lemma writeC_other (b : Board) (i j : Int) (v : Char) (px py : Fin 5)
    (hne : ¬(((px : Nat) : Int) = i ∧ ((py : Nat) : Int) = j)) :
    writeC b i j v px py = b px py := by
  unfold writeC
  rw [if_neg hne]


lemma readCells_spec (l : List Char) : ∀ n, (∀ x ∈ l, validCh x = true) →
    (l.filter (fun x => !isSkip x)).length = n →
    readCells l n = some (l.filter (fun x => !isSkip x)) := by
  induction l with
  | nil =>
    intro n _ hn
    simp at hn
    subst hn
    rfl
  | cons c rest ih =>
    intro n hv hn
    have hc : validCh c = true := hv c (by simp)
    have hrest : ∀ x ∈ rest, validCh x = true := fun x hx => hv x (by simp [hx])
    by_cases hs : isSkip c = true
    · rw [List.filter_cons_of_neg (by simp [hs])] at hn ⊢
      cases n with
      | zero =>
        have h0 : rest.filter (fun x => !isSkip x) = [] := List.length_eq_zero.mp hn
        rw [h0]
        rfl
      | succ m =>
        have hstep : readCells (c :: rest) (m + 1) = readCells rest (m + 1) := by
          simp only [readCells, hc, hs]
          rfl
        rw [hstep]
        exact ih (m + 1) hrest hn
    · rw [List.filter_cons_of_pos (by simp [hs])] at hn ⊢
      cases n with
      | zero => simp at hn
      | succ m =>
        have hstep : readCells (c :: rest) (m + 1)
            = (readCells rest m).map (fun l2 => c :: l2) := by
          simp only [readCells, hc, hs]
          rfl
        rw [hstep, ih m hrest (by simpa using hn)]
        rfl

lemma readCells_sound (l : List Char) : ∀ n out, readCells l n = some out →
    out.length = n ∧ ∀ x ∈ out, (x = 'M' ∨ x = 'o' ∨ x = '.') := by
  induction l with
  | nil =>
    intro n out h
    cases n with
    | zero =>
      cases h
      exact ⟨rfl, by simp⟩
    | succ m => cases h
  | cons c rest ih =>
    intro n out h
    cases n with
    | zero =>
      cases h
      exact ⟨rfl, by simp⟩
    | succ m =>
      by_cases hvv : validCh c = false
      · have : readCells (c :: rest) (m + 1) = none := by
          simp only [readCells, hvv]
          rfl
        rw [this] at h
        cases h
      · have hvt : validCh c = true := by
          cases hx : validCh c
          · exact absurd hx hvv
          · rfl
        by_cases hs : isSkip c = true
        · have hstep : readCells (c :: rest) (m + 1) = readCells rest (m + 1) := by
            simp only [readCells, hvt, hs]
            rfl
          rw [hstep] at h
          exact ih (m + 1) out h
        · have hsf : isSkip c = false := by
            cases hx : isSkip c
            · rfl
            · exact absurd hx hs
          have hstep : readCells (c :: rest) (m + 1)
              = (readCells rest m).map (fun l2 => c :: l2) := by
            simp only [readCells, hvt, hsf]
            rfl
          rw [hstep] at h
          cases hr : readCells rest m with
          | none =>
            rw [hr] at h
            cases h
          | some l2 =>
            rw [hr] at h
            have h2 : c :: l2 = out := by
              injection h
            obtain ⟨hlen, hmem⟩ := ih m l2 hr
            refine ⟨by rw [← h2]; simp [hlen], ?_⟩
            intro x hx
            rw [← h2] at hx
            rcases List.mem_cons.mp hx with hx | hx
            · subst hx
              have hv2 : (((x = 'o' ∨ x = 'M') ∨ x = '\n') ∨ x = ' ') ∨ x = '.' := by
                simpa [validCh] using hvt
              have hs2 : ¬(x = '\n' ∨ x = ' ') := by
                simpa [isSkip] using hsf
              tauto
            · exact hmem x hx

lemma serializeRow_valid (b : Board) (hvc : ∀ i k, validCh (b i k) = true) (i : Fin 5) :
    ∀ x ∈ serializeRow b i, validCh x = true := by
  intro x hx
  simp only [serializeRow, List.mem_cons, List.not_mem_nil, or_false] at hx
  rcases hx with rfl|rfl|rfl|rfl|rfl|rfl|rfl|rfl|rfl|rfl <;> first | rfl | exact hvc _ _

lemma writeBoard_valid (b : Board) (hvc : ∀ i k, validCh (b i k) = true) :
    ∀ x ∈ writeBoard b, validCh x = true := by
  intro x hx
  unfold writeBoard at hx
  simp only [List.mem_append] at hx
  rcases hx with ((((h|h)|h)|h)|h) <;> exact serializeRow_valid b hvc _ x h

lemma filter_serializeRow (b : Board) (hp : ∀ i k, (!isSkip (b i k)) = true) (i : Fin 5) :
    (serializeRow b i).filter (fun x => !isSkip x)
      = [b i 0, b i 1, b i 2, b i 3, b i 4] := by
  have s1 : (!isSkip ' ') = false := rfl
  have s2 : (!isSkip '\n') = false := rfl
  simp [serializeRow, List.filter, hp, s1, s2]

lemma filter_writeBoard (b : Board) (hp : ∀ i k, (!isSkip (b i k)) = true) :
    (writeBoard b).filter (fun x => !isSkip x) = cellsOf b := by
  unfold writeBoard
  rw [List.filter_append, List.filter_append, List.filter_append, List.filter_append,
      filter_serializeRow b hp, filter_serializeRow b hp, filter_serializeRow b hp,
      filter_serializeRow b hp, filter_serializeRow b hp]
  rfl

lemma boardOfCells_cellsOf (b : Board) : boardOfCells (cellsOf b) = b := by
  funext i k
  fin_cases i <;> fin_cases k <;> rfl


/-! ## Claim theorems -/

/-- Claim C1: for every board, every in-grid source, every direction
whose one-step destination is also in-grid, and every surrounding
memory, the Musketeer validator accepts iff the source cell holds 'M'
and the destination cell holds 'o', and the enemy validator accepts iff
the source cell holds 'o' and the destination cell holds '.'. -/
theorem validators_characterised (b : Board) (mem : Mem) (r c uR uC : Int) (d : Char)
    (hd : DirOk d) (hb : InGrid r c)
    (hdst : InGrid (destOf r c d uR uC).1 (destOf r c d uR uC).2) :
    (isValidMusketeerMove b mem r c d = true ↔
      (readC b mem r c = 'M' ∧
       readC b mem (destOf r c d uR uC).1 (destOf r c d uR uC).2 = 'o')) ∧
    (isValidEnemyMove b mem r c d = true ↔
      (readC b mem r c = 'o' ∧
       readC b mem (destOf r c d uR uC).1 (destOf r c d uR uC).2 = '.')) := by
  rw [destOf_indep r c uR uC 0 0 d hd] at hdst ⊢
  exact ⟨musketeer_accept_iff b mem r c d hd hb hdst,
         enemy_accept_iff b mem r c d hd hb⟩

/-- Witness for C1 at a concrete input: Musketeer at (0,0), enemy at
(0,1), move right. -/
theorem validators_characterised_witness :
    (DirOk 'r' ∧ InGrid 0 0 ∧ InGrid (destOf 0 0 'r' 7 7).1 (destOf 0 0 'r' 7 7).2) ∧
    ((isValidMusketeerMove bT memDot 0 0 'r' = true ↔
       (readC bT memDot 0 0 = 'M' ∧
        readC bT memDot (destOf 0 0 'r' 7 7).1 (destOf 0 0 'r' 7 7).2 = 'o')) ∧
     (isValidEnemyMove bT memDot 0 0 'r' = true ↔
       (readC bT memDot 0 0 = 'o' ∧
        readC bT memDot (destOf 0 0 'r' 7 7).1 (destOf 0 0 'r' 7 7).2 = '.'))) :=
  ⟨by decide, validators_characterised bT memDot 0 0 7 7 'r'
    (by decide) (by decide) (by decide)⟩

/-- Claim C2 (code bug): an enemy at (0,0) asked to move up — one step
off the board — is ACCEPTED by `isValidEnemyMove` when the out-of-range
byte `board[-1][0]` happens to read '.', and rejected when it reads 'X':
the validator dereferences memory outside the 5x5 grid and its verdict
depends on it, instead of rejecting the move before any such read. -/
theorem enemy_validator_out_of_bounds_bug :
    (destOf 0 0 'u' 0 0).1 = -1 ∧
    isValidEnemyMove bE memDot 0 0 'u' = true ∧
    isValidEnemyMove bE memX 0 0 'u' = false := by
  refine ⟨by decide, by decide, by decide⟩

/-- Claim C3: `winMusketeers` is true iff no cell holding 'M' has an
orthogonally adjacent cell holding 'o' (equivalently, the total count
of Musketeer-enemy orthogonal adjacencies over the board is zero). -/
theorem winMusketeers_iff_no_adjacent_enemy (b : Board) :
    winMusketeers b = true ↔
      (∀ i k i2 k2 : Fin 5, b i k = 'M' → OrthAdj i k i2 k2 → b i2 k2 ≠ 'o') := by
  have hsum : (∑ i : Fin 5, ∑ k : Fin 5, if b i k = 'M' then mAdjAt b i k else 0) = 0 ↔
      (∀ i k i2 k2 : Fin 5, b i k = 'M' → OrthAdj i k i2 k2 → b i2 k2 ≠ 'o') := by
    rw [Finset.sum_eq_zero_iff]
    constructor
    · intro h i k i2 k2 hm hadj
      have h2 := h i (Finset.mem_univ i)
      rw [Finset.sum_eq_zero_iff] at h2
      have h3 := h2 k (Finset.mem_univ k)
      rw [if_pos hm] at h3
      exact (mAdjAt_eq_zero_iff b i k).mp h3 i2 k2 hadj
    · intro h i _
      rw [Finset.sum_eq_zero_iff]
      intro k _
      by_cases hm : b i k = 'M'
      · rw [if_pos hm]
        exact (mAdjAt_eq_zero_iff b i k).mpr (fun i2 k2 ha => h i k i2 k2 hm ha)
      · rw [if_neg hm]
  show (if 0 < (∑ i : Fin 5, ∑ k : Fin 5, if b i k = 'M' then mAdjAt b i k else 0)
        then false else true) = true ↔ _
  by_cases hc : 0 < (∑ i : Fin 5, ∑ k : Fin 5, if b i k = 'M' then mAdjAt b i k else 0)
  · rw [if_pos hc]
    constructor
    · intro ht
      exact absurd ht (by simp)
    · intro h
      exact absurd (hsum.mpr h) (by omega)
  · rw [if_neg hc]
    constructor
    · intro _
      exact hsum.mp (by omega)
    · intro _
      rfl

/-- Claim C4: on a board with exactly three 'M' cells, `winEnemies` is
true iff the three Musketeers all share one row or all share one
column. -/
theorem winEnemies_iff_aligned (b : Board) (hM : countC 'M' b = 3) :
    winEnemies b = true ↔
      ((∃ r : Fin 5, ∀ i k : Fin 5, b i k = 'M' → i = r) ∨
       (∃ cc : Fin 5, ∀ i k : Fin 5, b i k = 'M' → k = cc)) := by
  unfold winEnemies fins
  simp only [List.any_cons, List.any_nil, Bool.or_eq_true, beq_iff_eq, Bool.or_false,
    Bool.false_eq_true, or_false]
  constructor
  · rintro (h | h)
    · rcases h with h|h|h|h|h <;> exact Or.inl ⟨_, (row_three_iff b hM _).mp h⟩
    · rcases h with h|h|h|h|h <;> exact Or.inr ⟨_, (col_three_iff b hM _).mp h⟩
  · rintro (⟨r, h⟩ | ⟨cc, h⟩)
    · left
      have h3 := (row_three_iff b hM r).mpr h
      fin_cases r <;> simp_all
    · right
      have h3 := (col_three_iff b hM cc).mpr h
      fin_cases cc <;> simp_all

/-- Witness for C4 at a concrete input: three Musketeers on row 0. -/
theorem winEnemies_iff_aligned_witness :
    countC 'M' b10a = 3 ∧
    (winEnemies b10a = true ↔
      ((∃ r : Fin 5, ∀ i k : Fin 5, b10a i k = 'M' → i = r) ∨
       (∃ cc : Fin 5, ∀ i k : Fin 5, b10a i k = 'M' → k = cc))) :=
  ⟨by decide, winEnemies_iff_aligned b10a (by decide)⟩

set_option maxHeartbeats 800000 in
/-- Claim C5: on a board with exactly three 'M' cells, applying a
validated move with `makeMove` preserves the Musketeer count at 3, and
decreases the enemy count by exactly one for a Musketeer move while
leaving it unchanged for an enemy move. -/
theorem makeMove_counts (b : Board) (mem : Mem) (r c uR uC : Int) (d : Char) (mTurn : Bool)
    (hd : DirOk d) (hb : InGrid r c)
    (hdst : InGrid (destOf r c d uR uC).1 (destOf r c d uR uC).2)
    (hM : countC 'M' b = 3)
    (hacc : (if mTurn then isValidMusketeerMove b mem r c d
             else isValidEnemyMove b mem r c d) = true) :
    countC 'M' (makeMove b r c d mTurn uR uC) = 3 ∧
    (if mTurn then countC 'o' b = countC 'o' (makeMove b r c d mTurn uR uC) + 1
     else countC 'o' (makeMove b r c d mTurn uR uC) = countC 'o' b) := by
  have hdi : destOf r c d uR uC = destOf r c d 0 0 := destOf_indep r c uR uC 0 0 d hd
  have hb' : 0 ≤ r ∧ r < 5 ∧ 0 ≤ c ∧ c < 5 := hb
  have hdst' : InGrid (destOf r c d 0 0).1 (destOf r c d 0 0).2 := by
    rw [← hdi]
    exact hdst
  set dd := destOf r c d 0 0 with hdd
  have hdst2 : 0 ≤ dd.1 ∧ dd.1 < 5 ∧ 0 ≤ dd.2 ∧ dd.2 < 5 := hdst'
  have hne : dd.1 ≠ r ∨ dd.2 ≠ c := by
    rw [hdd]
    rcases hd with h|h|h|h|h|h|h|h <;> subst h <;> simp [destOf]
  have hmk : makeMove b r c d mTurn uR uC
      = writeC (writeC b r c '.') dd.1 dd.2 (if mTurn then 'M' else 'o') := by
    unfold makeMove
    rw [hdi]
  obtain ⟨e1, e2, e3, e4⟩ := hb'
  obtain ⟨f1, f2, f3, f4⟩ := hdst2
  have eM1 := countC_writeC 'M' '.' b r c ⟨r.toNat, by omega⟩ ⟨c.toNat, by omega⟩
    (show (r.toNat : Int) = r by omega) (show (c.toNat : Int) = c by omega)
  have eO1 := countC_writeC 'o' '.' b r c ⟨r.toNat, by omega⟩ ⟨c.toNat, by omega⟩
    (show (r.toNat : Int) = r by omega) (show (c.toNat : Int) = c by omega)
  have eM2 := countC_writeC 'M' (if mTurn then 'M' else 'o') (writeC b r c '.')
    dd.1 dd.2 ⟨dd.1.toNat, by omega⟩ ⟨dd.2.toNat, by omega⟩
    (show (dd.1.toNat : Int) = dd.1 by omega)
    (show (dd.2.toNat : Int) = dd.2 by omega)
  have eO2 := countC_writeC 'o' (if mTurn then 'M' else 'o') (writeC b r c '.')
    dd.1 dd.2 ⟨dd.1.toNat, by omega⟩ ⟨dd.2.toNat, by omega⟩
    (show (dd.1.toNat : Int) = dd.1 by omega)
    (show (dd.2.toNat : Int) = dd.2 by omega)
  have hunt := writeC_other b r c '.' ⟨dd.1.toNat, by omega⟩ ⟨dd.2.toNat, by omega⟩ (by
    intro hc
    have h1 : (dd.1.toNat : Int) = r := hc.1
    have h2 : (dd.2.toNat : Int) = c := hc.2
    rcases hne with hx | hx
    · exact hx (by omega)
    · exact hx (by omega))
  cases mTurn
  case false =>
    have ha : isValidEnemyMove b mem r c d = true := hacc
    obtain ⟨hs, hdt⟩ := (enemy_accept_iff b mem r c d hd hb).mp ha
    rw [← hdd] at hdt
    rw [readC_inb b mem r c hb] at hs
    rw [readC_inb b mem dd.1 dd.2 hdst'] at hdt
    rw [hs] at eM1 eO1
    rw [hunt, hdt] at eM2 eO2
    rw [hmk]
    simp at eM1 eO1 eM2 eO2 ⊢
    omega
  case true =>
    have ha : isValidMusketeerMove b mem r c d = true := hacc
    obtain ⟨hs, hdt⟩ := (musketeer_accept_iff b mem r c d hd hb hdst').mp ha
    rw [← hdd] at hdt
    rw [readC_inb b mem r c hb] at hs
    rw [readC_inb b mem dd.1 dd.2 hdst'] at hdt
    rw [hs] at eM1 eO1
    rw [hunt, hdt] at eM2 eO2
    rw [hmk]
    simp at eM1 eO1 eM2 eO2 ⊢
    omega


/-- Witness for C5 at a concrete input: Musketeers at (0,0), (2,2),
(4,4), enemy at (0,1); the Musketeer at (0,0) captures it by moving
right. -/
theorem makeMove_counts_witness :
    (DirOk 'r' ∧ InGrid 0 0 ∧ InGrid (destOf 0 0 'r' 7 7).1 (destOf 0 0 'r' 7 7).2 ∧
     countC 'M' b5 = 3 ∧
     (if true then isValidMusketeerMove b5 memDot 0 0 'r'
      else isValidEnemyMove b5 memDot 0 0 'r') = true) ∧
    (countC 'M' (makeMove b5 0 0 'r' true 7 7) = 3 ∧
     (if true then countC 'o' b5 = countC 'o' (makeMove b5 0 0 'r' true 7 7) + 1
      else countC 'o' (makeMove b5 0 0 'r' true 7 7) = countC 'o' b5)) :=
  ⟨by decide, makeMove_counts b5 memDot 0 0 7 7 'r' true
    (by decide) (by decide) (by decide) (by decide) (by decide)⟩

/-- Claim C6: one iteration of the turn loop on a non-interrupt input
that parses as (r, c, d): if the active side's validator rejects the
move, the board (all 25 cells) and the active side are unchanged; if it
accepts, the move is applied and the active side flips. -/
theorem turn_loop_transition (b : Board) (mem : Mem) (uR uC : Int) (t : Bool)
    (input : List Char) (r c : Int) (d : Char)
    (hni : ¬ (input = ("0,0=E\n".toList) ∨ input = ("0,0=e\n".toList)))
    (hp : parseMove input = some (r, c, d)) :
    playStep b mem uR uC t input =
      some (if (if t then isValidMusketeerMove b mem r c d
                else isValidEnemyMove b mem r c d) = true
            then (makeMove b r c d t uR uC, !t) else (b, t)) := by
  unfold playStep
  rw [if_neg hni, hp]
  cases t <;> simp [apply_ite some]

/-- Witness for C6 at a concrete input: on the empty board, the
Musketeer move "a,1=l" is rejected, so the board and the active side are
unchanged. -/
theorem turn_loop_transition_witness :
    playStep bD memDot 0 0 true ("a,1=l\n".toList) = some (bD, true) := by
  have h := turn_loop_transition bD memDot 0 0 true ("a,1=l\n".toList) 0 0 'l'
    (by decide) (by decide)
  rw [h, if_neg]
  simp only [if_true]
  intro hc
  exact absurd hc (by decide)

/-- Claim C9 (counterexample): the move text "x,9=z" is NOT rejected at
the parsing step: both row and column scan as plain characters, so it
parses successfully to row 23, column 8, direction 'z' and reaches the
validators. -/
theorem malformed_input_parses :
    parseMove ("x,9=z\n".toList) = some (23, 8, 'z') := by decide

/-- Claim C9 (amended): "x,9=z" parses to (23, 8, 'z'), the active
side's validator is evaluated on it and rejects it (the source is out
of bounds), and the turn loop leaves the board and the active side
unchanged. -/
theorem malformed_input_rejected_by_validator (b : Board) (mem : Mem)
    (uR uC : Int) (t : Bool) :
    parseMove ("x,9=z\n".toList) = some (23, 8, 'z') ∧
    isValidMusketeerMove b mem 23 8 'z' = false ∧
    isValidEnemyMove b mem 23 8 'z' = false ∧
    playStep b mem uR uC t ("x,9=z\n".toList) = some (b, t) := by
  refine ⟨rfl, rfl, rfl, ?_⟩
  cases t <;> rfl

/-- Claim C10: `winEnemies` reads only which cells hold 'M': two boards
with the same Musketeer cells get the same verdict, whatever the other
cells hold. -/
theorem winEnemies_depends_only_on_musketeers (b1 b2 : Board)
    (h : ∀ i k, b1 i k = 'M' ↔ b2 i k = 'M') :
    winEnemies b1 = winEnemies b2 := by
  have hr : ∀ i, rowMCount b1 i = rowMCount b2 i := by
    intro i
    unfold rowMCount
    refine Finset.sum_congr rfl (fun k _ => ?_)
    by_cases hb : b1 i k = 'M'
    · rw [if_pos hb, if_pos ((h i k).mp hb)]
    · rw [if_neg hb, if_neg (fun hb2 => hb ((h i k).mpr hb2))]
  have hc : ∀ k, colMCount b1 k = colMCount b2 k := by
    intro k
    unfold colMCount
    refine Finset.sum_congr rfl (fun i _ => ?_)
    by_cases hb : b1 i k = 'M'
    · rw [if_pos hb, if_pos ((h i k).mp hb)]
    · rw [if_neg hb, if_neg (fun hb2 => hb ((h i k).mpr hb2))]
  unfold winEnemies
  simp only [hr, hc]

/-- Witness for C10 at concrete boards: same three Musketeers on row 0,
empty elsewhere versus enemies elsewhere. -/
theorem winEnemies_depends_only_on_musketeers_witness :
    (∀ i k, b10a i k = 'M' ↔ b10b i k = 'M') ∧ winEnemies b10a = winEnemies b10b :=
  ⟨by decide, winEnemies_depends_only_on_musketeers b10a b10b (by decide)⟩


/-- Claim C7: for any board whose 25 cells all hold 'M', 'o' or '.',
loading the text produced by saving it reproduces the identical
board. -/
theorem save_load_roundtrip (b : Board)
    (h : ∀ i k, b i k = 'M' ∨ b i k = 'o' ∨ b i k = '.') :
    readBoard (writeBoard b) = some b := by
  have hvc : ∀ i k, validCh (b i k) = true := by
    intro i k
    rcases h i k with hh|hh|hh <;> rw [hh] <;> rfl
  have hp : ∀ i k, (!isSkip (b i k)) = true := by
    intro i k
    rcases h i k with hh|hh|hh <;> rw [hh] <;> rfl
  have hfil : (writeBoard b).filter (fun x => !isSkip x) = cellsOf b :=
    filter_writeBoard b hp
  have hlen : ((writeBoard b).filter (fun x => !isSkip x)).length = 25 := by
    rw [hfil]
    rfl
  have hrc := readCells_spec (writeBoard b) 25 (writeBoard_valid b hvc) hlen
  rw [hfil] at hrc
  unfold readBoard
  rw [hrc]
  show some (boardOfCells (cellsOf b)) = some b
  rw [boardOfCells_cellsOf]

/-- Witness for C7 at a concrete input: the board with Musketeers at
(0,0), (2,2), (4,4) and an enemy at (0,1). -/
theorem save_load_roundtrip_witness :
    (∀ i k, b5 i k = 'M' ∨ b5 i k = 'o' ∨ b5 i k = '.') ∧
    readBoard (writeBoard b5) = some b5 :=
  ⟨by decide, save_load_roundtrip b5 (by decide)⟩

/-- Claim C8 (counterexample): `readBoard` accepts a grid with ZERO 'M'
symbols — it never counts Musketeers, so a grid whose Musketeer count
differs from 3 is loaded successfully rather than rejected. -/
theorem loader_accepts_wrong_musketeer_count :
    readBoard dotsIn = some dB ∧ countC 'M' dB = 0 := by
  constructor
  · rfl
  · decide

/-- Claim C8 (amended): a successful `readBoard` guarantees only that
every cell holds one of the symbols 'M', 'o', '.' (character validation);
no Musketeer-count check is performed, so grids with any number of 'M'
symbols are accepted. -/
theorem loader_validates_symbols_only (input : List Char) (b : Board)
    (h : readBoard input = some b) :
    ∀ i k, b i k = 'M' ∨ b i k = 'o' ∨ b i k = '.' := by
  unfold readBoard at h
  cases hr : readCells input 25 with
  | none =>
    rw [hr] at h
    cases h
  | some l =>
    rw [hr] at h
    have h2 : boardOfCells l = b := by
      injection h
    obtain ⟨hlen, hmem⟩ := readCells_sound input 25 l hr
    intro i k
    rw [← h2]
    show l.getD ((i : Nat) * 5 + (k : Nat)) '.' = 'M' ∨
      l.getD ((i : Nat) * 5 + (k : Nat)) '.' = 'o' ∨
      l.getD ((i : Nat) * 5 + (k : Nat)) '.' = '.'
    have hidx : (i : Nat) * 5 + (k : Nat) < l.length := by
      rw [hlen]
      have hi := i.isLt
      have hk := k.isLt
      omega
    rw [List.getD_eq_getElem l '.' hidx]
    exact hmem _ (List.getElem_mem hidx)

/-- Witness for the amended C8 at a concrete input: loading the
all-empty grid succeeds, and its cells are all valid symbols. -/
theorem loader_validates_symbols_only_witness :
    readBoard dotsIn = some dB ∧
    (∀ i k, dB i k = 'M' ∨ dB i k = 'o' ∨ dB i k = '.') :=
  ⟨rfl, loader_validates_symbols_only dotsIn dB rfl⟩

end TM
